import Mathlib

/-!
Verification of the cruxd recipe-execution engine against its specification.

The Go sources are embedded shallowly: pure functions become Lean functions,
Go maps become association lists with unique keys, stateful code threads an
explicit state value, and calls into the external container engine become
oracle parameters whose results are universally quantified.
-/

set_option maxHeartbeats 1600000

namespace Cruxd

/-! ## Go standard library models: strings and file paths -/

/-- Model of Go `unicode.IsSpace` restricted to the code points it reports as
white space in Latin-1 (sufficient for splitting copy strings). -/
def goIsSpace (c : Char) : Bool :=
  c == ' ' || c == '\t' || c == '\n' || c == '\r' ||
  c == Char.ofNat 11 || c == Char.ofNat 12 ||
  c == Char.ofNat 0x85 || c == Char.ofNat 0xA0

/-- Splitting a character list at separator characters, keeping empty pieces
(the semantics of Go `strings.Split` / Lean `String.split`), written with
structural recursion so it evaluates in the kernel. -/
def splitCharsAux (p : Char → Bool) : List Char → List Char → List (List Char)
  | [], acc => [acc.reverse]
  | c :: rest, acc =>
    if p c then acc.reverse :: splitCharsAux p rest []
    else splitCharsAux p rest (c :: acc)

/-- Split a character list at every character satisfying `p`. -/
def splitChars (p : Char → Bool) (cs : List Char) : List (List Char) :=
  splitCharsAux p cs []

/-- Join path components with a slash separator. -/
def joinComponents : List String → String
  | [] => ""
  | [c] => c
  | c :: rest => c ++ "/" ++ joinComponents rest

/-- Model of Go `strings.Fields`: split around runs of white space; no empty
tokens are produced. -/
def fields (s : String) : List String :=
  ((splitChars goIsSpace s.data).map String.mk).filter (fun t => t ≠ "")

/-- Model of Go `path/filepath.IsAbs` on Unix: the path begins with a slash. -/
def isAbs (p : String) : Bool :=
  p.data.head? == some '/'

/-- One step of the lexical path-cleaning algorithm: push a component onto the
(reversed) stack of output components, resolving "", "." and "..". -/
def cleanPush (rooted : Bool) (acc : List String) (c : String) : List String :=
  if c = "" || c = "." then acc
  else if c = ".." then
    match acc with
    | [] => if rooted then [] else [".."]
    | a :: rest => if a = ".." then c :: acc else rest
  else c :: acc

/-- Model of Go `path/filepath.Clean` on Unix, written component-wise: drop
empty and "." components, resolve ".." against preceding components (and drop
".." at the root of a rooted path), and rebuild the path. -/
def pathClean (p : String) : String :=
  let rooted := isAbs p
  let comps0 := (splitChars (fun c => c == '/') p.data).map String.mk
  let comps := (comps0.foldl (cleanPush rooted) []).reverse
  let body := joinComponents comps
  if rooted then
    if body = "" then "/" else "/" ++ body
  else
    if body = "" then "." else body

/-- Model of Go `path/filepath.Join` for two elements: empty elements are
dropped, the rest are joined with a slash, and the result is cleaned. -/
def filepathJoin (a b : String) : String :=
  if a = "" then
    if b = "" then "" else pathClean b
  else if b = "" then pathClean a
  else pathClean (a ++ "/" ++ b)

/-- Cut a character list at the first `=`. -/
def cutCharsEq : List Char → Option (List Char × List Char)
  | [] => none
  | c :: rest =>
    if c = '=' then some ([], rest)
    else
      match cutCharsEq rest with
      | some (a, b) => some (c :: a, b)
      | none => none

/-- Model of Go `strings.Cut(s, "=")`: split at the first `=`, returning
`none` when the separator does not occur. -/
def cutEq (s : String) : Option (String × String) :=
  match cutCharsEq s.data with
  | some (a, b) => some (String.mk a, String.mk b)
  | none => none

/-! ## Go map model: association lists with unique keys

A Go `map[string]string` is modelled as an association list whose keys are
unique. `envInsert` is a single `m[k] = v` assignment; `mapsCopy` is
`maps.Copy(dst, src)` (Go maps have unique keys, so its source iterates each
key once). -/

/-- Environment map: key/value pairs. -/
abbrev EnvMap := List (String × String)

/-- Lookup of the first binding of a key. -/
def envLookup (e : EnvMap) (k : String) : Option String :=
  match e with
  | [] => none
  | (k2, v) :: rest => if k2 = k then some v else envLookup rest k

/-- Go map assignment `m[k] = v`: replace the first binding of `k` in place,
or append a new binding. -/
def envInsert (e : EnvMap) (k v : String) : EnvMap :=
  match e with
  | [] => [(k, v)]
  | (k2, v2) :: rest =>
    if k2 = k then (k2, v) :: rest else (k2, v2) :: envInsert rest k v

/-- Go `maps.Copy(dst, src)`: assign every binding of `src` into `dst`. -/
def mapsCopy (dst src : EnvMap) : EnvMap :=
  src.foldl (fun acc kv => envInsert acc kv.1 kv.2) dst

/-- Key uniqueness: the well-formedness invariant of every Go map value. -/
def EnvWF (e : EnvMap) : Prop :=
  (e.map Prod.fst).Nodup

instance (e : EnvMap) : Decidable (EnvWF e) := by
  unfold EnvWF; infer_instance

/-- Left-biased combination of options (Go's "first writer stays" is not
needed; this is "first operand wins when present"). -/
def optOr (a b : Option String) : Option String :=
  match a with
  | some v => some v
  | none => b

theorem envLookup_envInsert (e : EnvMap) (k v k' : String) :
    envLookup (envInsert e k v) k' =
      if k = k' then some v else envLookup e k' := by
  induction e with
  | nil => simp [envInsert, envLookup]
  | cons hd tl ih =>
    obtain ⟨k2, v2⟩ := hd
    by_cases h2 : k2 = k
    · subst h2
      by_cases h' : k2 = k'
      · subst h'; simp [envInsert, envLookup]
      · simp [envInsert, envLookup, h']
    · by_cases h' : k2 = k'
      · subst h'
        have : ¬ k = k2 := fun hh => h2 hh.symm
        simp [envInsert, envLookup, h2, this]
      · simp [envInsert, envLookup, h2, h', ih]

/-- A key that does not occur among the keys has no binding. -/
theorem envLookup_eq_none_of_not_mem (e : EnvMap) (k : String)
    (h : k ∉ e.map Prod.fst) : envLookup e k = none := by
  induction e with
  | nil => rfl
  | cons hd tl ih =>
    obtain ⟨k2, v2⟩ := hd
    rw [List.map_cons, List.mem_cons] at h
    push_neg at h
    have hne : k2 ≠ k := fun hh => h.1 hh.symm
    simp only [envLookup, hne, if_false]
    exact ih h.2

/-- Decomposition of key uniqueness at a cons cell. -/
theorem EnvWF_cons {k1 v1 : String} {tl : EnvMap}
    (h : EnvWF ((k1, v1) :: tl)) :
    k1 ∉ tl.map Prod.fst ∧ EnvWF tl := by
  unfold EnvWF at *
  rw [List.map_cons, List.nodup_cons] at h
  exact h

theorem envLookup_mapsCopy (dst src : EnvMap) (k : String)
    (hsrc : EnvWF src) :
    envLookup (mapsCopy dst src) k =
      optOr (envLookup src k) (envLookup dst k) := by
  induction src generalizing dst with
  | nil => simp [mapsCopy, envLookup, optOr]
  | cons hd tl ih =>
    obtain ⟨k1, v1⟩ := hd
    obtain ⟨hnotin, hwf⟩ := EnvWF_cons hsrc
    have step : mapsCopy dst ((k1, v1) :: tl) = mapsCopy (envInsert dst k1 v1) tl := by
      simp [mapsCopy]
    rw [step, ih _ hwf, envLookup_envInsert]
    by_cases h : k1 = k
    · subst h
      have hnone : envLookup tl k1 = none := envLookup_eq_none_of_not_mem _ _ hnotin
      simp [envLookup, hnone, optOr]
    · simp [envLookup, h, optOr]

/-- Keys of the map after an assignment: unchanged when the key was present,
extended by the key otherwise. -/
theorem keys_envInsert (e : EnvMap) (k v : String) :
    (envInsert e k v).map Prod.fst =
      if k ∈ e.map Prod.fst then e.map Prod.fst else e.map Prod.fst ++ [k] := by
  induction e with
  | nil => simp [envInsert]
  | cons hd tl ih =>
    obtain ⟨k2, v2⟩ := hd
    by_cases h2 : k2 = k
    · subst h2; simp [envInsert]
    · have h2' : ¬ k = k2 := fun hh => h2 hh.symm
      by_cases hm : k ∈ tl.map Prod.fst
      · simp [envInsert, h2, ih, hm, h2']
      · simp [envInsert, h2, ih, hm, h2']

/-- Assignment preserves key uniqueness. -/
theorem EnvWF_envInsert (e : EnvMap) (k v : String) (h : EnvWF e) :
    EnvWF (envInsert e k v) := by
  unfold EnvWF at *
  rw [keys_envInsert]
  by_cases hm : k ∈ e.map Prod.fst
  · simpa [hm] using h
  · simp only [hm, if_false]
    refine List.Nodup.append h (List.nodup_singleton k) ?_
    intro a ha hb
    rw [List.mem_singleton] at hb
    subst hb
    exact hm ha

/-- `maps.Copy` preserves key uniqueness of the destination. -/
theorem EnvWF_mapsCopy (dst src : EnvMap) (h : EnvWF dst) :
    EnvWF (mapsCopy dst src) := by
  induction src generalizing dst with
  | nil => simpa [mapsCopy] using h
  | cons hd tl ih =>
    have step : mapsCopy dst (hd :: tl) = mapsCopy (envInsert dst hd.1 hd.2) tl := by
      simp [mapsCopy]
    rw [step]
    exact ih _ (EnvWF_envInsert _ _ _ h)

/-! ## Recipe steps and per-stage step state

`manifest.Step` consumed by the engine: a step may carry an operation
(`Run` or `Copy`), modifier fields (`Shell`, `Workdir`, `Env`), and nested
child steps (`Steps`). -/

/-- A recipe step (the typed object of `manifest.Step`). -/
inductive Step where
  | mk (run copy shell workdir : String) (env : EnvMap) (steps : List Step)

/-- The step's shell command, empty when absent. -/
def Step.Run : Step → String
  | .mk r _ _ _ _ _ => r

/-- The step's copy string, empty when absent. -/
def Step.Copy : Step → String
  | .mk _ c _ _ _ _ => c

/-- The step's shell modifier, empty when absent. -/
def Step.Shell : Step → String
  | .mk _ _ sh _ _ _ => sh

/-- The step's workdir modifier, empty when absent. -/
def Step.Workdir : Step → String
  | .mk _ _ _ w _ _ => w

/-- The step's environment modifier map. -/
def Step.Env : Step → EnvMap
  | .mk _ _ _ _ e _ => e

/-- The step's nested child steps. -/
def Step.Steps : Step → List Step
  | .mk _ _ _ _ _ ss => ss

/-- Default shell used for run steps when no shell modifier has been set
(`defaultShell` in stepstate.go). -/
def defaultShell : String := "/bin/sh"

/-- Per-stage accumulated modifier state (`stepState` in stepstate.go). -/
structure stepState where
  shell : String
  workdir : String
  env : EnvMap
deriving DecidableEq

/-- `newStepState`: default shell, empty workdir, empty env. -/
def newStepState : stepState :=
  { shell := defaultShell, workdir := "", env := [] }

/-- `(*stepState).apply`: persist non-empty shell/workdir modifiers and merge
the step's env map on top of the state's env. -/
def stepState.apply (s : stepState) (t : Step) : stepState :=
  let s1 := if t.Shell ≠ "" then { s with shell := t.Shell } else s
  let s2 := if t.Workdir ≠ "" then { s1 with workdir := t.Workdir } else s1
  { s2 with env := mapsCopy s2.env t.Env }

/-- `(*stepState).resolve`: build a fresh state with the receiver's
shell/workdir, copy the receiver's env and then the step's env into a fresh
map, and finally override shell/workdir from the step when non-empty. -/
def stepState.resolve (s : stepState) (t : Step) : stepState :=
  let r0 : stepState :=
    { shell := s.shell, workdir := s.workdir,
      env := mapsCopy (mapsCopy [] s.env) t.Env }
  let r1 := if t.Shell ≠ "" then { r0 with shell := t.Shell } else r0
  if t.Workdir ≠ "" then { r1 with workdir := t.Workdir } else r1

/-- The Go `resolve` method as a receiver transformer: it returns the value of
the receiver after the call together with the resolved state. The Go body
never assigns through the receiver (the resolved state's env is a freshly
allocated map), so the receiver output is the input unchanged. -/
def stepState.resolveGo (s : stepState) (t : Step) : stepState × stepState :=
  (s, s.resolve t)

/-- `(*stepState).environ`: the env as "key=value" strings. -/
def stepState.environ (s : stepState) : List String :=
  s.env.map (fun kv => kv.1 ++ "=" ++ kv.2)

theorem apply_shell (s : stepState) (t : Step) :
    (s.apply t).shell = if t.Shell ≠ "" then t.Shell else s.shell := by
  by_cases h1 : t.Shell = "" <;> by_cases h2 : t.Workdir = "" <;>
    simp [stepState.apply, h1, h2]

theorem apply_workdir (s : stepState) (t : Step) :
    (s.apply t).workdir = if t.Workdir ≠ "" then t.Workdir else s.workdir := by
  by_cases h1 : t.Shell = "" <;> by_cases h2 : t.Workdir = "" <;>
    simp [stepState.apply, h1, h2]

theorem apply_env (s : stepState) (t : Step) :
    (s.apply t).env = mapsCopy s.env t.Env := by
  by_cases h1 : t.Shell = "" <;> by_cases h2 : t.Workdir = "" <;>
    simp [stepState.apply, h1, h2]

theorem resolve_shell (s : stepState) (t : Step) :
    (s.resolve t).shell = if t.Shell ≠ "" then t.Shell else s.shell := by
  by_cases h1 : t.Shell = "" <;> by_cases h2 : t.Workdir = "" <;>
    simp [stepState.resolve, h1, h2]

theorem resolve_workdir (s : stepState) (t : Step) :
    (s.resolve t).workdir = if t.Workdir ≠ "" then t.Workdir else s.workdir := by
  by_cases h1 : t.Shell = "" <;> by_cases h2 : t.Workdir = "" <;>
    simp [stepState.resolve, h1, h2]

theorem resolve_env (s : stepState) (t : Step) :
    (s.resolve t).env = mapsCopy (mapsCopy [] s.env) t.Env := by
  by_cases h1 : t.Shell = "" <;> by_cases h2 : t.Workdir = "" <;>
    simp [stepState.resolve, h1, h2]

/-- Copying into a fresh map preserves lookups when the source keys are
unique. -/
theorem envLookup_mapsCopy_nil (e : EnvMap) (k : String) (h : EnvWF e) :
    envLookup (mapsCopy [] e) k = envLookup e k := by
  rw [envLookup_mapsCopy _ _ _ h]
  cases envLookup e k <;> simp [optOr, envLookup]

/-- States reachable from the fresh per-stage state by any sequence of
`apply` and `resolve` calls with arbitrary steps. `resolve` does not mutate
its receiver, but its result is the state a Run operation executes with, so
both results are reachable. -/
inductive Reachable : stepState → Prop
  | base : Reachable newStepState
  | applyStep (s : stepState) (t : Step) : Reachable s → Reachable (s.apply t)
  | resolveStep (s : stepState) (t : Step) : Reachable s → Reachable (s.resolve t)

/-- C5: for any stepState `s` and step `t`, `s.resolve(t)` returns a state
whose shell and workdir equal `t`'s value when non-empty and `s`'s value
otherwise, whose env at every key is `t`'s binding when present and `s`'s
binding otherwise, and the receiver `s` is unchanged by the call. -/
theorem resolve_spec (s : stepState) (t : Step) (k : String)
    (hs : EnvWF s.env) (ht : EnvWF t.Env) :
    (s.resolve t).shell = (if t.Shell ≠ "" then t.Shell else s.shell) ∧
    (s.resolve t).workdir = (if t.Workdir ≠ "" then t.Workdir else s.workdir) ∧
    envLookup (s.resolve t).env k = optOr (envLookup t.Env k) (envLookup s.env k) ∧
    (s.resolveGo t).1 = s := by
  refine ⟨resolve_shell s t, resolve_workdir s t, ?_, rfl⟩
  rw [resolve_env, envLookup_mapsCopy _ _ _ ht, envLookup_mapsCopy_nil _ _ hs]

/-- Witness for C5 at a concrete state and step. -/
theorem resolve_spec_witness :
    EnvWF [("A", "1"), ("B", "2")] ∧ EnvWF [("A", "9")] ∧
    ((stepState.mk "/bin/bash" "/app" [("A", "1"), ("B", "2")]).resolve
        (.mk "" "" "/bin/zsh" "" [("A", "9")] [])).shell = "/bin/zsh" ∧
    ((stepState.mk "/bin/bash" "/app" [("A", "1"), ("B", "2")]).resolve
        (.mk "" "" "/bin/zsh" "" [("A", "9")] [])).workdir = "/app" ∧
    envLookup ((stepState.mk "/bin/bash" "/app" [("A", "1"), ("B", "2")]).resolve
        (.mk "" "" "/bin/zsh" "" [("A", "9")] [])).env "A" = some "9" := by
  have h := resolve_spec
    (stepState.mk "/bin/bash" "/app" [("A", "1"), ("B", "2")])
    (.mk "" "" "/bin/zsh" "" [("A", "9")] []) "A"
    (by decide) (by decide)
  refine ⟨by decide, by decide, ?_, ?_, ?_⟩
  · rw [h.1]; decide
  · rw [h.2.1]; decide
  · rw [h.2.2.1]; decide

/-- C10: every state reachable from `newStepState` by `apply`/`resolve`
sequences has a non-empty shell, so in particular every resolved state a Run
operation executes with has a non-empty shell. -/
theorem reachable_shell_nonempty (s : stepState) (h : Reachable s) :
    s.shell ≠ "" ∧ ∀ t : Step, (s.resolve t).shell ≠ "" := by
  have main : s.shell ≠ "" := by
    induction h with
    | base => simp [newStepState, defaultShell]
    | applyStep s' t _ ih =>
      rw [apply_shell]
      by_cases hts : t.Shell = "" <;> simp [hts, ih]
    | resolveStep s' t _ ih =>
      rw [resolve_shell]
      by_cases hts : t.Shell = "" <;> simp [hts, ih]
  refine ⟨main, fun t => ?_⟩
  rw [resolve_shell]
  by_cases hts : t.Shell = "" <;> simp [hts, main]

/-- Witness for C10 at the initial state. -/
theorem reachable_shell_nonempty_witness :
    Reachable newStepState ∧
      (newStepState.shell ≠ "" ∧ ∀ t : Step, (newStepState.resolve t).shell ≠ "") :=
  ⟨.base, reachable_shell_nonempty newStepState .base⟩

/-! ## Copy string parsing (copy.go) -/

/-- `parseCopy(s, workdir)`: the copy string must contain exactly two
whitespace-separated tokens; a non-absolute destination is joined with the
workdir and a non-absolute destination with an empty workdir is an error. -/
def parseCopy (s workdir : String) : Except String (String × String) :=
  match fields s with
  | [src, dest] =>
    if isAbs dest then .ok (src, dest)
    else if workdir = "" then .error ("relative dest " ++ dest ++ " requires workdir")
    else .ok (src, filepathJoin workdir dest)
  | _ => .error ("expected source and destination, got " ++ s)

/-- A path starting with `/` stays rooted under a further `++`. -/
theorem isAbs_slash_append (s : String) : isAbs ("/" ++ s) = true := by
  unfold isAbs
  rw [String.data_append]
  rfl

/-- Cleaning preserves rootedness. -/
theorem isAbs_pathClean (p : String) (h : isAbs p = true) :
    isAbs (pathClean p) = true := by
  unfold pathClean
  simp only [h]
  set body := joinComponents
    ((((splitChars (fun c => c == '/') p.data).map String.mk).foldl
      (cleanPush true) []).reverse) with hb
  by_cases hbody : body = ""
  · simp only [hbody, if_true]
    decide
  · simp only [if_true, hbody, if_false]
    exact isAbs_slash_append body

/-- A non-empty rooted path has a head slash exposed on its data. -/
theorem data_head_of_isAbs (p : String) (h : isAbs p = true) :
    p.data.head? = some '/' := by
  unfold isAbs at h
  exact eq_of_beq h

/-- Joining onto an absolute first element yields an absolute path. -/
theorem isAbs_filepathJoin (a b : String) (h : isAbs a = true) :
    isAbs (filepathJoin a b) = true := by
  have ha : a ≠ "" := by
    intro he
    rw [he] at h
    simp [isAbs] at h
  unfold filepathJoin
  simp only [ha, if_false]
  by_cases hb : b = ""
  · simp only [hb, if_true]
    exact isAbs_pathClean a h
  · simp only [hb, if_false]
    apply isAbs_pathClean
    unfold isAbs at *
    rw [String.data_append, String.data_append]
    rcases hd : a.data with _ | ⟨c, rest⟩
    · rw [hd] at h; simp at h
    · rw [hd] at h
      simp only [List.head?] at h
      simpa using h

/-- C7 (as stated) is false: with a relative workdir, a successful parseCopy
returns a non-absolute destination. Concretely, `parseCopy "src out" "w"`
succeeds with destination `"w/out"`, which is not absolute. -/
theorem parseCopy_abs_counterexample :
    parseCopy "src out" "w" = .ok ("src", "w/out") ∧ isAbs "w/out" = false := by
  constructor
  · rfl
  · decide

/-- C7 (amended): `parseCopy(input, workdir)` succeeds iff the input splits
into exactly two whitespace tokens and (the destination token is absolute or
the workdir is non-empty); on success the source is the first token and the
destination is the second token when absolute, otherwise the path-join of the
workdir and the second token; the returned destination is absolute whenever
the second token is absolute or the workdir is absolute. -/
theorem parseCopy_spec (s workdir : String) :
    ((∃ r, parseCopy s workdir = .ok r) ↔
      (∃ a b, fields s = [a, b] ∧ (isAbs b = true ∨ workdir ≠ ""))) ∧
    (∀ a b, fields s = [a, b] →
      (isAbs b = true → parseCopy s workdir = .ok (a, b)) ∧
      (isAbs b = false → workdir ≠ "" →
        parseCopy s workdir = .ok (a, filepathJoin workdir b) ∧
        (isAbs workdir = true → isAbs (filepathJoin workdir b) = true))) := by
  constructor
  · constructor
    · rintro ⟨r, hr⟩
      rcases hf : fields s with _ | ⟨a, _ | ⟨b, _ | ⟨c, t⟩⟩⟩ <;>
        simp only [parseCopy, hf] at hr
      · simp at hr
      · simp at hr
      · by_cases habs : isAbs b = true
        · exact ⟨a, b, rfl, Or.inl habs⟩
        · by_cases hw : workdir = ""
          · rw [if_neg habs, if_pos hw] at hr
            simp at hr
          · exact ⟨a, b, rfl, Or.inr hw⟩
      · simp at hr
    · rintro ⟨a, b, hf, hcond⟩
      simp only [parseCopy, hf]
      by_cases habs : isAbs b = true
      · exact ⟨(a, b), by rw [if_pos habs]⟩
      · rcases hcond with hcond | hw
        · exact absurd hcond habs
        · exact ⟨(a, filepathJoin workdir b),
            by rw [if_neg habs, if_neg hw]⟩
  · intro a b hf
    constructor
    · intro habs
      simp only [parseCopy, hf]
      rw [if_pos habs]
    · intro habs hw
      refine ⟨?_, fun hwabs => isAbs_filepathJoin workdir b hwabs⟩
      simp only [parseCopy, hf]
      rw [if_neg (by simp [habs]), if_neg hw]

/-- Witness for C7 (amended) at the repository's own test vector
(`"file.txt out/"` with workdir `"/app"`). -/
theorem parseCopy_spec_witness :
    fields "file.txt out/" = ["file.txt", "out/"] ∧
    isAbs "out/" = false ∧ ("/app" : String) ≠ "" ∧
    parseCopy "file.txt out/" "/app" = .ok ("file.txt", filepathJoin "/app" "out/") ∧
    isAbs (filepathJoin "/app" "out/") = true ∧
    filepathJoin "/app" "out/" = "/app/out" := by
  have h := (parseCopy_spec "file.txt out/" "/app").2 "file.txt" "out/" (by decide)
  have h2 := h.2 (by decide) (by decide)
  exact ⟨by decide, by decide, by decide, h2.1, h2.2 (by decide), by decide⟩

/-! ## Platform defaulting, output layout (recipe.go / options) -/

/-- `platformSlug`: the platform string with every `/` replaced by `-`. -/
def platformSlug (platform : String) : String :=
  String.mk (platform.data.map (fun c => if c = '/' then '-' else c))

/-- `(*recipe).platformOutput`: the output directory is left as-is for a
single-platform build, and gains a slug subdirectory otherwise. -/
def platformOutput (output : String) (platforms : List String) (platform : String) : String :=
  if platforms.length = 1 then output else filepathJoin output (platformSlug platform)

/-- Platform defaulting at the top of `Run`: an empty platform list becomes
the single host platform `linux/<arch>`. -/
def defaultPlatforms (ps : List String) (hostArch : String) : List String :=
  if ps = [] then ["linux/" ++ hostArch] else ps

/-- Filename of the OCI archive produced by Export. -/
def exportFilename : String := "image.tar"

/-- The archive path written by `Export` given a stage output directory. -/
def exportPath (output : String) : String :=
  filepathJoin output exportFilename

/-- C8: after platform defaulting, the per-platform output directory equals
the configured output for a single-platform build and gains a dash-slug
subdirectory otherwise; consequently the archive lands at
`<output>/image.tar` resp. `<output>/<slug>/image.tar`. -/
theorem platformOutput_spec (output hostArch platform : String) (ps : List String) :
    ((defaultPlatforms ps hostArch).length = 1 →
      platformOutput output (defaultPlatforms ps hostArch) platform = output ∧
      exportPath (platformOutput output (defaultPlatforms ps hostArch) platform) =
        filepathJoin output exportFilename) ∧
    ((defaultPlatforms ps hostArch).length ≠ 1 →
      platformOutput output (defaultPlatforms ps hostArch) platform =
        filepathJoin output (platformSlug platform) ∧
      exportPath (platformOutput output (defaultPlatforms ps hostArch) platform) =
        filepathJoin (filepathJoin output (platformSlug platform)) exportFilename) ∧
    (platformSlug platform).data =
      platform.data.map (fun c => if c = '/' then '-' else c) := by
  refine ⟨fun h1 => ?_, fun h1 => ?_, rfl⟩
  · simp [platformOutput, exportPath, h1]
  · simp [platformOutput, exportPath, h1]

/-- Witness for C8: defaulted single-platform build keeps the flat layout. -/
theorem platformOutput_spec_witness :
    (defaultPlatforms [] "amd64").length = 1 ∧
    platformOutput "/out" (defaultPlatforms [] "amd64") "linux/amd64" = "/out" ∧
    exportPath (platformOutput "/out" (defaultPlatforms [] "amd64") "linux/amd64") =
      filepathJoin "/out" exportFilename := by
  have h := (platformOutput_spec "/out" "amd64" "linux/amd64" []).1 (by decide)
  exact ⟨by decide, h.1, h.2⟩

/-! ## Environment merging for exec process specs (exec.go) -/

/-- One Go loop iteration of `mergeEnv`: parse an entry with `strings.Cut`
and assign it into the map, skipping entries without a `=`. -/
def envEntryStep (acc : EnvMap) (e : String) : EnvMap :=
  match cutEq e with
  | some (k, v) => envInsert acc k v
  | none => acc

/-- Fold a list of "K=V" entries into a map, later entries overriding. -/
def envFromEntries (dst : EnvMap) (entries : List String) : EnvMap :=
  entries.foldl envEntryStep dst

/-- `mergeEnv` from exec.go, seen as the merged map: base entries are
assigned first, override entries second. -/
def mergeEnvMap (base overrides : List String) : EnvMap :=
  envFromEntries (envFromEntries [] base) overrides

/-- `mergeEnv` from exec.go: the merged map rendered as "K=V" strings (the
Go map iteration order is unspecified; the model uses insertion order). -/
def mergeEnv (base overrides : List String) : List String :=
  (mergeEnvMap base overrides).map (fun kv => kv.1 ++ "=" ++ kv.2)

/-- Reference reading of an entry list: the value of the last well-formed
`K=V` entry for the key, if any. -/
def lookupStep (k : String) (acc : Option String) (e : String) : Option String :=
  match cutEq e with
  | some (k2, v) => if k2 = k then some v else acc
  | none => acc

/-- The value the entry list assigns to a key (last well-formed entry wins),
`none` when no well-formed entry carries the key. -/
def lookupEntries (entries : List String) (k : String) : Option String :=
  entries.foldl (lookupStep k) none

theorem optOr_none_right (a : Option String) : optOr a none = a := by
  cases a <;> rfl

theorem optOr_assoc (a b c : Option String) :
    optOr (optOr a b) c = optOr a (optOr b c) := by
  cases a <;> rfl

/-- One entry's contribution to the last-wins lookup. -/
theorem lookupStep_none (k : String) (acc : Option String) (e : String) :
    lookupStep k acc e = optOr (lookupStep k none e) acc := by
  unfold lookupStep
  cases cutEq e with
  | none => simp [optOr]
  | some kv =>
    obtain ⟨k2, v⟩ := kv
    by_cases hk : k2 = k <;> simp [hk, optOr]

theorem foldl_lookupStep (entries : List String) (acc : Option String) (k : String) :
    entries.foldl (lookupStep k) acc = optOr (lookupEntries entries k) acc := by
  induction entries generalizing acc with
  | nil => cases acc <;> simp [lookupEntries, optOr]
  | cons e rest ih =>
    have h2 : lookupEntries (e :: rest) k =
        optOr (lookupEntries rest k) (lookupStep k none e) := by
      unfold lookupEntries
      rw [List.foldl_cons]
      exact ih (lookupStep k none e)
    rw [List.foldl_cons, ih (lookupStep k acc e), h2, optOr_assoc,
      ← lookupStep_none]

/-- One entry's contribution to the merged map's lookup. -/
theorem envLookup_envEntryStep (dst : EnvMap) (e k : String) :
    envLookup (envEntryStep dst e) k =
      optOr (lookupStep k none e) (envLookup dst k) := by
  unfold envEntryStep lookupStep
  cases cutEq e with
  | none => simp [optOr]
  | some kv =>
    obtain ⟨k2, v⟩ := kv
    rw [envLookup_envInsert]
    by_cases hk : k2 = k <;> simp [hk, optOr]

theorem envLookup_envFromEntries (entries : List String) (dst : EnvMap) (k : String) :
    envLookup (envFromEntries dst entries) k =
      optOr (lookupEntries entries k) (envLookup dst k) := by
  induction entries generalizing dst with
  | nil => simp [envFromEntries, lookupEntries, optOr]
  | cons e rest ih =>
    have hstep : envFromEntries dst (e :: rest) = envFromEntries (envEntryStep dst e) rest := by
      simp [envFromEntries]
    have hlk : lookupEntries (e :: rest) k =
        optOr (lookupEntries rest k) (lookupStep k none e) := by
      simp only [lookupEntries, List.foldl_cons]
      exact foldl_lookupStep rest (lookupStep k none e) k
    rw [hstep, ih, hlk, optOr_assoc, ← envLookup_envEntryStep]

/-- Folding entries into a map preserves key uniqueness. -/
theorem EnvWF_envFromEntries (entries : List String) (dst : EnvMap) (h : EnvWF dst) :
    EnvWF (envFromEntries dst entries) := by
  induction entries generalizing dst with
  | nil => simpa [envFromEntries] using h
  | cons e rest ih =>
    have hstep : envFromEntries dst (e :: rest) = envFromEntries (envEntryStep dst e) rest := by
      simp [envFromEntries]
    rw [hstep]
    refine ih _ ?_
    unfold envEntryStep
    cases cutEq e with
    | none => exact h
    | some kv => exact EnvWF_envInsert _ _ _ h

/-- In a map with unique keys, membership determines the lookup. -/
theorem envLookup_of_mem (e : EnvMap) (k v : String) (hwf : EnvWF e)
    (hm : (k, v) ∈ e) : envLookup e k = some v := by
  induction e with
  | nil => simp at hm
  | cons hd tl ih =>
    obtain ⟨k2, v2⟩ := hd
    obtain ⟨hnotin, hwf2⟩ := EnvWF_cons hwf
    rcases List.mem_cons.mp hm with heq | hm2
    · simp only [Prod.mk.injEq] at heq
      obtain ⟨h1, h2⟩ := heq
      subst h1
      subst h2
      simp [envLookup]
    · have hk2 : k2 ≠ k := by
        intro he
        subst he
        exact hnotin (List.mem_map.mpr ⟨(k2, v), hm2, rfl⟩)
      simp only [envLookup, hk2, if_false]
      exact ih hwf2 hm2

/-- C9: `mergeEnv` produces one entry per distinct key of the well-formed
entries of either list, the override value winning over the base value; every
result entry is a `K=V` rendering of the merged map, so malformed entries
(no `=`) never appear. -/
theorem mergeEnv_spec (base overrides : List String) (k : String) :
    EnvWF (mergeEnvMap base overrides) ∧
    envLookup (mergeEnvMap base overrides) k =
      optOr (lookupEntries overrides k) (lookupEntries base k) ∧
    (∀ e ∈ mergeEnv base overrides, ∃ k2 v, e = k2 ++ "=" ++ v ∧
      envLookup (mergeEnvMap base overrides) k2 = some v) := by
  have hwf : EnvWF (mergeEnvMap base overrides) :=
    EnvWF_envFromEntries _ _ (EnvWF_envFromEntries _ _ (by simp [EnvWF]))
  refine ⟨hwf, ?_, ?_⟩
  · unfold mergeEnvMap
    rw [envLookup_envFromEntries, envLookup_envFromEntries]
    simp only [envLookup]
    rw [optOr_none_right]
  · intro e he
    obtain ⟨⟨k2, v⟩, hmem, hE⟩ := List.mem_map.mp he
    exact ⟨k2, v, hE.symm, envLookup_of_mem _ _ _ hwf hmem⟩

/-- Witness for C9: override wins, malformed entry dropped. -/
theorem mergeEnv_spec_witness :
    envLookup (mergeEnvMap ["A=1", "B=2", "junk"] ["A=9"]) "A" = some "9" ∧
    envLookup (mergeEnvMap ["A=1", "B=2", "junk"] ["A=9"]) "B" = some "2" ∧
    EnvWF (mergeEnvMap ["A=1", "B=2", "junk"] ["A=9"]) := by
  have hA := mergeEnv_spec ["A=1", "B=2", "junk"] ["A=9"] "A"
  have hB := mergeEnv_spec ["A=1", "B=2", "junk"] ["A=9"] "B"
  refine ⟨?_, ?_, hA.1⟩
  · rw [hA.2.1]; decide
  · rw [hB.2.1]; decide

/-! ## Step execution (step.go)

Calls that cross into the container engine (mkdir, exec, tar transfer) are
oracle parameters; the executor additionally records the effects it performs
so that the dispatch behaviour is observable. -/

/-- Result of a command execution inside a container (`ExecResult`). -/
structure ExecResult where
  ExitCode : Int
  Stdout : String
  Stderr : String
deriving DecidableEq

/-- Error kinds surfaced by step execution: engine failures wrapped as
ErrRuntime, non-zero run steps wrapped as ErrCommandFailed with exit code and
stderr, copy failures wrapped as ErrCopy, and the per-step "step %d: %w"
wrapping applied by executeSteps. -/
inductive BuildErr where
  | runtime (msg : String)
  | commandFailed (exitCode : Int) (stderr : String)
  | copyFailed (msg : String)
  | stepErr (index : Nat) (e : BuildErr)
deriving DecidableEq

/-- Effects performed inside the stage container, in order. -/
inductive Effect where
  | mkdir (path : String)
  | run (argv : List String) (env : List String) (workdir : String)
  | copy (copyStr : String) (workdir : String)
deriving DecidableEq

/-- Oracle for the container engine: results of mkdir, of executing an argv
with an environment and workdir (`execCommand` in exec.go: engine failure, or
exit code with captured stdout/stderr), and of the tar transfer behind
executeCopy (whose parse layer is modelled separately by `parseCopy`). -/
structure StepOracle where
  mkdirAll : String → Option String
  execCommand : List String → List String → String → Except String (Int × String × String)
  copyOutcome : String → String → Option String

/-- `(*Container).Exec`: run the command as `shell -c command` with the given
env and workdir (exec.go builds the argv exactly this way). -/
def ContainerExec (o : StepOracle) (shell command : String)
    (env : List String) (workdir : String) : Except String ExecResult :=
  match o.execCommand [shell, "-c", command] env workdir with
  | .error e => .error e
  | .ok (code, out, err) => .ok ⟨code, out, err⟩

/-- `executeOperation`: resolve the state, ensure the resolved workdir exists
when non-empty, then run the Run command or the Copy transfer. The persistent
state is not an output: the Go function never mutates it. -/
def executeOperation (o : StepOracle) (t : Step) (s : stepState) :
    List Effect × Option BuildErr :=
  let resolved := s.resolve t
  let mkEffs : List Effect :=
    if resolved.workdir ≠ "" then [.mkdir resolved.workdir] else []
  let mkErr : Option String :=
    if resolved.workdir ≠ "" then o.mkdirAll resolved.workdir else none
  match mkErr with
  | some e => (mkEffs, some (.runtime e))
  | none =>
    if t.Run ≠ "" then
      match ContainerExec o resolved.shell t.Run resolved.environ resolved.workdir with
      | .error e =>
        (mkEffs ++ [.run [resolved.shell, "-c", t.Run] resolved.environ resolved.workdir],
         some (.runtime e))
      | .ok r =>
        (mkEffs ++ [.run [resolved.shell, "-c", t.Run] resolved.environ resolved.workdir],
         if r.ExitCode ≠ 0 then some (.commandFailed r.ExitCode r.Stderr) else none)
    else if t.Copy ≠ "" then
      (mkEffs ++ [.copy t.Copy resolved.workdir],
       (o.copyOutcome t.Copy resolved.workdir).map .copyFailed)
    else (mkEffs, none)

mutual

/-- `executeStep`: dispatch to group recursion, operation execution, or
persistent modifier application, in that order. -/
def executeStep (o : StepOracle) : Step → stepState →
    stepState × List Effect × Option BuildErr
  | .mk run copy shell workdir env steps, s =>
    if 0 < steps.length then
      executeSteps o steps (s.apply (.mk run copy shell workdir env steps)) 1
    else if run ≠ "" ∨ copy ≠ "" then
      let r := executeOperation o (.mk run copy shell workdir env steps) s
      (s, r.1, r.2)
    else (s.apply (.mk run copy shell workdir env steps), [], none)

/-- `executeSteps`: run steps in order, wrapping the first failure as
"step %d: %w" with the 1-based index, and stopping there. -/
def executeSteps (o : StepOracle) : List Step → stepState → Nat →
    stepState × List Effect × Option BuildErr
  | [], s, _ => (s, [], none)
  | t :: rest, s, i =>
    match executeStep o t s with
    | (s1, effs, some e) => (s1, effs, some (.stepErr i e))
    | (s1, effs, none) =>
      let r := executeSteps o rest s1 (i + 1)
      (r.1, effs ++ r.2.1, r.2.2)

end

/-- When the resolved workdir is non-empty, executeOperation's first effect
is `mkdir -p` of that workdir. -/
theorem executeOperation_mkdir_head (o : StepOracle) (t : Step) (s : stepState)
    (hw : (s.resolve t).workdir ≠ "") :
    (executeOperation o t s).1.head? = some (.mkdir (s.resolve t).workdir) := by
  unfold executeOperation
  simp only [hw, ne_eq, not_false_eq_true, if_true, ite_true]
  cases o.mkdirAll (s.resolve t).workdir with
  | some e => simp
  | none =>
    by_cases hr : t.Run ≠ ""
    · simp only [hr, if_true, ite_true]
      cases ContainerExec o (s.resolve t).shell t.Run (s.resolve t).environ
          (s.resolve t).workdir with
      | error e => simp
      | ok r => simp
    · simp only [hr, ite_false]
      by_cases hc : t.Copy ≠ ""
      · simp [hc]
      · simp [hc]

/-- C4: executeStep performs exactly one of three behaviours, checked in this
order: with child steps, the step's own modifiers are applied persistently
and the children are executed; with a non-empty Run or Copy, the operation is
executed via executeOperation against a resolved state, the resolved workdir
(when non-empty) is created first, and the persistent state is returned
unchanged; otherwise the modifiers are applied persistently with no effects
and no error. -/
theorem executeStep_dispatch (o : StepOracle) (t : Step) (s : stepState) :
    (t.Steps ≠ [] →
      executeStep o t s = executeSteps o t.Steps (s.apply t) 1) ∧
    (t.Steps = [] → (t.Run ≠ "" ∨ t.Copy ≠ "") →
      executeStep o t s =
        (s, (executeOperation o t s).1, (executeOperation o t s).2) ∧
      ((s.resolve t).workdir ≠ "" →
        (executeOperation o t s).1.head? = some (.mkdir (s.resolve t).workdir))) ∧
    (t.Steps = [] → t.Run = "" → t.Copy = "" →
      executeStep o t s = (s.apply t, [], none)) := by
  obtain ⟨run, copy, shell, workdir, env, steps⟩ := t
  refine ⟨fun hne => ?_, fun hnil hop => ?_, fun hnil hr hc => ?_⟩
  · have hpos : 0 < steps.length := by
      cases steps with
      | nil => exact absurd rfl hne
      | cons a l => simp
    simp only [executeStep, hpos, if_true, Step.Steps]
  · have hnil' : steps = [] := hnil
    subst hnil'
    have hop' : run ≠ "" ∨ copy ≠ "" := hop
    refine ⟨?_, fun hw => executeOperation_mkdir_head o _ s hw⟩
    simp only [executeStep, List.length_nil, Nat.lt_irrefl, if_false, hop', if_true]
  · have hnil' : steps = [] := hnil
    subst hnil'
    have hr' : run = "" := hr
    have hc' : copy = "" := hc
    subst hr'
    subst hc'
    simp [executeStep]

/-- Witness for C4 at a modifier-only step (third branch). -/
theorem executeStep_dispatch_witness :
    (Step.mk "" "" "/bin/bash" "" [] []).Steps = [] ∧
    (Step.mk "" "" "/bin/bash" "" [] []).Run = "" ∧
    (Step.mk "" "" "/bin/bash" "" [] []).Copy = "" ∧
    executeStep
        { mkdirAll := fun _ => none, execCommand := fun _ _ _ => .ok (0, "", ""),
          copyOutcome := fun _ _ => none }
        (.mk "" "" "/bin/bash" "" [] []) newStepState =
      (newStepState.apply (.mk "" "" "/bin/bash" "" [] []), [], none) :=
  ⟨rfl, rfl, rfl,
    (executeStep_dispatch
      { mkdirAll := fun _ => none, execCommand := fun _ _ _ => .ok (0, "", ""),
        copyOutcome := fun _ _ => none }
      (.mk "" "" "/bin/bash" "" [] []) newStepState).2.2 rfl rfl rfl⟩

/-- C6: for a step with a non-empty Run (and the workdir mkdir succeeding),
executeOperation fails with ErrCommandFailed carrying the exit code and the
captured stderr exactly when the command — executed as `shell -c command`
with the resolved environment and workdir — exits non-zero while the exec
itself succeeds; a zero exit code yields no error. -/
theorem executeOperation_run_spec (o : StepOracle) (t : Step) (s : stepState)
    (hrun : t.Run ≠ "")
    (hmk : (s.resolve t).workdir = "" ∨ o.mkdirAll (s.resolve t).workdir = none) :
    (∀ code out st,
      o.execCommand [(s.resolve t).shell, "-c", t.Run]
          (s.resolve t).environ (s.resolve t).workdir = .ok (code, out, st) →
      (code ≠ 0 → (executeOperation o t s).2 = some (.commandFailed code st)) ∧
      (code = 0 → (executeOperation o t s).2 = none)) ∧
    ((∃ code st, (executeOperation o t s).2 = some (.commandFailed code st)) ↔
      (∃ code out st,
        o.execCommand [(s.resolve t).shell, "-c", t.Run]
            (s.resolve t).environ (s.resolve t).workdir = .ok (code, out, st) ∧
        code ≠ 0)) := by
  have hmkErr :
      (if (s.resolve t).workdir ≠ "" then o.mkdirAll (s.resolve t).workdir else none)
        = none := by
    rcases hmk with hw | hnone
    · simp [hw]
    · simp [hnone]
  unfold executeOperation ContainerExec
  simp only [hmkErr, hrun, ne_eq, not_false_eq_true, if_true, ite_true]
  cases hx : o.execCommand [(s.resolve t).shell, "-c", t.Run]
      (s.resolve t).environ (s.resolve t).workdir with
  | error e =>
    refine ⟨fun code out st hok => absurd hok (by simp), ?_⟩
    constructor
    · rintro ⟨code, st, habs⟩
      simp at habs
    · rintro ⟨code, out, st, hok, _⟩
      exact absurd hok (by simp)
  | ok r =>
    obtain ⟨code, out, st⟩ := r
    refine ⟨fun code' out' st' hok => ?_, ?_⟩
    · simp only [Except.ok.injEq, Prod.mk.injEq] at hok
      obtain ⟨h1, h2, h3⟩ := hok
      subst h1
      subst h3
      constructor
      · intro hne
        simp [hne]
      · intro h0
        simp [h0]
    · constructor
      · rintro ⟨code', st', heq⟩
        by_cases h0 : code = 0
        · simp [h0] at heq
        · exact ⟨code, out, st, rfl, h0⟩
      · rintro ⟨code', out', st', hok, hne⟩
        simp only [Except.ok.injEq, Prod.mk.injEq] at hok
        obtain ⟨h1, h2, h3⟩ := hok
        subst h1
        subst h3
        exact ⟨code, st, by simp [hne]⟩

/-- Witness for C6: a run step exiting 1 with stderr "boom" surfaces
ErrCommandFailed(1, "boom"). -/
theorem executeOperation_run_witness :
    (Step.mk "false" "" "" "" [] []).Run ≠ "" ∧
    (executeOperation
        { mkdirAll := fun _ => none, execCommand := fun _ _ _ => .ok (1, "", "boom"),
          copyOutcome := fun _ _ => none }
        (.mk "false" "" "" "" [] []) newStepState).2 =
      some (.commandFailed 1 "boom") := by
  have h := executeOperation_run_spec
    { mkdirAll := fun _ => none, execCommand := fun _ _ _ => .ok (1, "", "boom"),
      copyOutcome := fun _ _ => none }
    (.mk "false" "" "" "" [] []) newStepState (by decide) (Or.inl rfl)
  exact ⟨by decide, (h.1 1 "" "boom" rfl).1 (by decide)⟩

/-! ## Recipe orchestration and container cleanup (recipe.go)

Contexts are modelled as values passed along exactly as the Go code passes
`ctx`: `build` receives the originating context and hands it to whatever it
calls; a `context.Background()` call would produce the distinguished
`background` value. Engine outcomes are an oracle. -/

/-- A context value: the caller's originating context or a fresh background
context. -/
inductive CtxKind where
  | orig
  | background
deriving DecidableEq

/-- A stage as consumed by the orchestrator (steps live behind the oracle). -/
structure Stage where
  name : String
  transient : Bool
deriving DecidableEq

/-- Observable container-lifecycle events of a build, in order. -/
inductive BuildEvent where
  | startContainer (id : String)
  | destroy (id : String) (ctx : CtxKind)
deriving DecidableEq

/-- Oracle for engine outcomes per platform and stage index: base-reference
parsing, StartContainer, step execution, Stop and Export outcomes, and
platform output directory creation. -/
structure BuildOracle where
  fromErr : Nat → Option String
  startOk : String → Nat → Bool
  stepsErr : String → Nat → Option String
  stopErr : String → Nat → Option String
  exportErr : String → Nat → Option String
  mkdirPlatformErr : String → Option String

/-- The orchestrator's mutable state: the registered container list and the
observed events. -/
structure RecipeState where
  containers : List String
  events : List BuildEvent
deriving DecidableEq

/-- Errors surfaced by `build`: output directory failures and per-stage
failures wrapped as "platform %s, stage %s: %w". -/
inductive RunErr where
  | fs (msg : String)
  | stageFailed (platform : String) (label : String) (msg : String)
deriving DecidableEq

/-- `stageLabel`: quoted name when set, 1-based index otherwise. -/
def stageLabel (name : String) (index : Nat) : String :=
  if name ≠ "" then "\"" ++ name ++ "\"" else toString (index + 1)

/-- `(*recipe).containerID`: `{resource}-{platform-slug}-stage-{name|index}`. -/
def containerID (resource name : String) (index : Nat) (platform : String) : String :=
  if name ≠ "" then
    resource ++ "-" ++ platformSlug platform ++ "-stage-" ++ name
  else
    resource ++ "-" ++ platformSlug platform ++ "-stage-" ++ toString (index + 1)

/-- `(*recipe).buildStage`: parse the base reference, start the container
(registering it on success), execute steps, and stop/export a non-transient
stage. The error payload is the message of the first failing operation. -/
def buildStage (o : BuildOracle) (resource platform : String) (stage : Stage)
    (index : Nat) (st : RecipeState) : RecipeState × Option String :=
  match o.fromErr index with
  | some e => (st, some e)
  | none =>
    let id := containerID resource stage.name index platform
    if o.startOk platform index then
      let st1 : RecipeState :=
        { containers := st.containers ++ [id],
          events := st.events ++ [.startContainer id] }
      match o.stepsErr platform index with
      | some e => (st1, some e)
      | none =>
        if stage.transient then (st1, none)
        else
          match o.stopErr platform index with
          | some e => (st1, some e)
          | none =>
            match o.exportErr platform index with
            | some e => (st1, some e)
            | none => (st1, none)
    else (st, some "start failed")

/-- The stage loop of `(*recipe).buildPlatform`: build each stage in order,
stopping at and wrapping the first failure. -/
def buildStages (o : BuildOracle) (resource platform : String) :
    List Stage → Nat → RecipeState → RecipeState × Option RunErr
  | [], _, st => (st, none)
  | stage :: rest, i, st =>
    match buildStage o resource platform stage i st with
    | (st1, some e) => (st1, some (.stageFailed platform (stageLabel stage.name i) e))
    | (st1, none) => buildStages o resource platform rest (i + 1) st1

/-- `(*recipe).buildPlatform`: create the platform output directory, then
build the stages. -/
def buildPlatform (o : BuildOracle) (resource output : String)
    (platforms : List String) (stages : List Stage) (platform : String)
    (st : RecipeState) : RecipeState × Option RunErr :=
  match o.mkdirPlatformErr (platformOutput output platforms platform) with
  | some e => (st, some (.fs e))
  | none => buildStages o resource platform stages 0 st

/-- The platform loop of `(*recipe).build`: stop at the first failing
platform. -/
def buildPlatforms (o : BuildOracle) (resource output : String)
    (allPlatforms : List String) (stages : List Stage) :
    List String → RecipeState → RecipeState × Option RunErr
  | [], st => (st, none)
  | p :: rest, st =>
    match buildPlatform o resource output allPlatforms stages p st with
    | (st1, some e) => (st1, some e)
    | (st1, none) => buildPlatforms o resource output allPlatforms stages rest st1

/-- `(*recipe).destroyContainers`: call Destroy on every registered
container, passing along the context it was given. -/
def destroyContainers (ctx : CtxKind) (st : RecipeState) : RecipeState :=
  { st with events := st.events ++ st.containers.map (fun id => .destroy id ctx) }

/-- `(*recipe).build`: run all platforms, then (via `defer`) destroy every
registered container with the context `build` itself received, on success
and on error alike. -/
def build (o : BuildOracle) (ctx : CtxKind) (resource output : String)
    (platforms : List String) (stages : List Stage) :
    RecipeState × Option RunErr :=
  let r := buildPlatforms o resource output platforms stages platforms
    { containers := [], events := [] }
  (destroyContainers ctx r.1, r.2)

/-- Every started container id is registered. -/
def RegInv (st : RecipeState) : Prop :=
  ∀ id, BuildEvent.startContainer id ∈ st.events → id ∈ st.containers

theorem RegInv_register (st : RecipeState) (id : String) (h : RegInv st) :
    RegInv { containers := st.containers ++ [id],
             events := st.events ++ [BuildEvent.startContainer id] } := by
  intro id' hm
  rcases List.mem_append.mp hm with hm1 | hm2
  · exact List.mem_append.mpr (Or.inl (h id' hm1))
  · rw [List.mem_singleton] at hm2
    injection hm2 with hid
    subst hid
    exact List.mem_append.mpr (Or.inr (List.mem_singleton.mpr rfl))

theorem RegInv_buildStage (o : BuildOracle) (resource platform : String)
    (stage : Stage) (i : Nat) (st : RecipeState) (h : RegInv st) :
    RegInv (buildStage o resource platform stage i st).1 := by
  unfold buildStage
  cases o.fromErr i with
  | some e => exact h
  | none =>
    by_cases hs : o.startOk platform i
    · simp only [hs, if_true]
      have h1 := RegInv_register st (containerID resource stage.name i platform) h
      cases o.stepsErr platform i with
      | some e => exact h1
      | none =>
        by_cases ht : stage.transient
        · simp only [ht, if_true]
          exact h1
        · simp only [ht, if_false]
          cases o.stopErr platform i with
          | some e => exact h1
          | none =>
            cases o.exportErr platform i with
            | some e => exact h1
            | none => exact h1
    · simp only [hs, if_false]
      exact h

theorem RegInv_buildStages (o : BuildOracle) (resource platform : String)
    (stages : List Stage) (i : Nat) (st : RecipeState) (h : RegInv st) :
    RegInv (buildStages o resource platform stages i st).1 := by
  induction stages generalizing i st with
  | nil => exact h
  | cons stage rest ih =>
    unfold buildStages
    have hst := RegInv_buildStage o resource platform stage i st h
    rcases hres : buildStage o resource platform stage i st with ⟨st1, err⟩
    rw [hres] at hst
    cases err with
    | some e => exact hst
    | none => exact ih (i + 1) st1 hst

theorem RegInv_buildPlatform (o : BuildOracle) (resource output : String)
    (platforms : List String) (stages : List Stage) (platform : String)
    (st : RecipeState) (h : RegInv st) :
    RegInv (buildPlatform o resource output platforms stages platform st).1 := by
  unfold buildPlatform
  cases o.mkdirPlatformErr (platformOutput output platforms platform) with
  | some e => exact h
  | none => exact RegInv_buildStages o resource platform stages 0 st h

theorem RegInv_buildPlatforms (o : BuildOracle) (resource output : String)
    (allPlatforms : List String) (stages : List Stage) (ps : List String)
    (st : RecipeState) (h : RegInv st) :
    RegInv (buildPlatforms o resource output allPlatforms stages ps st).1 := by
  induction ps generalizing st with
  | nil => exact h
  | cons p rest ih =>
    unfold buildPlatforms
    have hst := RegInv_buildPlatform o resource output allPlatforms stages p st h
    rcases hres : buildPlatform o resource output allPlatforms stages p st with ⟨st1, err⟩
    rw [hres] at hst
    cases err with
    | some e => exact hst
    | none => exact ih st1 hst

/-- Oracle in which every engine operation succeeds. -/
def allOkOracle : BuildOracle :=
  { fromErr := fun _ => none, startOk := fun _ _ => true,
    stepsErr := fun _ _ => none, stopErr := fun _ _ => none,
    exportErr := fun _ _ => none, mkdirPlatformErr := fun _ => none }

/-- C2 (as stated) is false on the destruction context: on a fully successful
single-stage build invoked with the originating context, the one registered
container is destroyed with that originating context — `destroyContainers`
receives `build`'s own `ctx` — and no destruction with a background context
ever happens. -/
theorem build_destroy_ctx_counterexample :
    (build allOkOracle .orig "res" "/out" ["linux/amd64"]
        [⟨"main", false⟩]).1.events =
      [.startContainer "res-linux-amd64-stage-main",
       .destroy "res-linux-amd64-stage-main" .orig] ∧
    BuildEvent.destroy "res-linux-amd64-stage-main" CtxKind.background ∉
      (build allOkOracle .orig "res" "/out" ["linux/amd64"]
        [⟨"main", false⟩]).1.events := by
  constructor
  · decide
  · decide

/-- C2 (amended): once build returns (with a Result or with an error at any
platform or stage), Destroy has been invoked on every container registered
after a successful StartContainer — but with the originating context that
`build` received, not a background context. -/
theorem build_destroys_registered (o : BuildOracle) (ctx : CtxKind)
    (resource output : String) (platforms : List String) (stages : List Stage)
    (id : String)
    (h : BuildEvent.startContainer id ∈
      (build o ctx resource output platforms stages).1.events) :
    BuildEvent.destroy id ctx ∈
      (build o ctx resource output platforms stages).1.events := by
  have hinv : RegInv (buildPlatforms o resource output platforms stages platforms
      { containers := [], events := [] }).1 := by
    refine RegInv_buildPlatforms o resource output platforms stages platforms _ ?_
    intro id' hm
    simp at hm
  unfold build destroyContainers at h ⊢
  rcases List.mem_append.mp h with h1 | h2
  · refine List.mem_append.mpr (Or.inr ?_)
    exact List.mem_map.mpr ⟨id, hinv id h1, rfl⟩
  · obtain ⟨a, _, heq⟩ := List.mem_map.mp h2
    exact absurd heq (by simp)

/-- Witness for C2 (amended) on a concrete successful build. -/
theorem build_destroys_registered_witness :
    BuildEvent.startContainer "res-linux-amd64-stage-main" ∈
      (build allOkOracle .orig "res" "/out" ["linux/amd64"]
        [⟨"main", false⟩]).1.events ∧
    BuildEvent.destroy "res-linux-amd64-stage-main" CtxKind.orig ∈
      (build allOkOracle .orig "res" "/out" ["linux/amd64"]
        [⟨"main", false⟩]).1.events :=
  ⟨by decide,
    build_destroys_registered allOkOracle .orig "res" "/out" ["linux/amd64"]
      [⟨"main", false⟩] "res-linux-amd64-stage-main" (by decide)⟩

/-! ## OCI data model and platform resolution (export.go)

`ocispec` structures carry only the fields the engine reads or writes.
Content-store reads appear as oracle/state parameters; `platforms.OnlyStrict`
is strict equality on os/arch/variant, which is what both the code comment
and the spec describe. -/

/-- An OCI platform (os/arch/variant). -/
structure Platform where
  OS : String
  Architecture : String
  Variant : String
deriving DecidableEq

/-- An OCI content descriptor; `Plat` is the optional `platform` field an
index entry may carry. -/
structure Descriptor where
  MediaType : String
  Digest : String
  Size : Int
  Plat : Option Platform
deriving DecidableEq

/-- An OCI image index. -/
structure OCIIndex where
  MediaType : String
  Manifests : List Descriptor
deriving DecidableEq

/-- An OCI image manifest. -/
structure Manifest where
  Config : Descriptor
  Layers : List Descriptor
deriving DecidableEq

/-- An OCI image config (the fields Export reads and mutates). -/
structure ImageConfig where
  OS : String
  Architecture : String
  Variant : String
  DiffIDs : List String
  Entrypoint : List String
  Cmd : Option (List String)
deriving DecidableEq

/-- containerd `images.IsIndexType`. -/
def IsIndexType (mt : String) : Bool :=
  mt == "application/vnd.oci.image.index.v1+json" ||
  mt == "application/vnd.docker.distribution.manifest.list.v2+json"

/-- containerd `images.IsManifestType`. -/
def IsManifestType (mt : String) : Bool :=
  mt == "application/vnd.oci.image.manifest.v1+json" ||
  mt == "application/vnd.docker.distribution.manifest.v2+json"

/-- `platforms.OnlyStrict(p).Match(q)`: strict equality on os/arch/variant. -/
def strictMatch (p q : Platform) : Bool :=
  p.OS == q.OS && p.Architecture == q.Architecture && p.Variant == q.Variant

/-- The first loop of `matchManifest`: an entry with an explicit platform
field that strictly matches. -/
def explicitMatch (p : Platform) (m : Descriptor) : Bool :=
  match m.Plat with
  | some q => strictMatch p q
  | none => false

/-- The second loop of `matchManifest`: a manifest-typed entry without a
platform field whose config blob (read through `cfgPlat`) declares a
matching platform. -/
def fallbackMatch (cfgPlat : Descriptor → Option Platform) (p : Platform)
    (m : Descriptor) : Bool :=
  match m.Plat with
  | some _ => false
  | none =>
    IsManifestType m.MediaType &&
      (match cfgPlat m with
       | some q => strictMatch p q
       | none => false)

/-- Index-and-position scan, mirroring a Go `for i, m := range` loop that
returns the first index whose element satisfies the predicate. -/
def findIdxFrom (pred : Descriptor → Bool) : List Descriptor → Nat → Option Nat
  | [], _ => none
  | m :: rest, i => if pred m then some i else findIdxFrom pred rest (i + 1)

/-- The zero descriptor (only used as a `getD` default). -/
def defaultDescriptor : Descriptor :=
  { MediaType := "", Digest := "", Size := 0, Plat := none }

/-- `(*Container).matchManifest`: first scan entries with explicit platform
metadata, then probe platform-less manifest entries via their config blob. -/
def matchManifest (cfgPlat : Descriptor → Option Platform) (idx : OCIIndex)
    (p : Platform) : Nat × Bool :=
  match findIdxFrom (explicitMatch p) idx.Manifests 0 with
  | some i => (i, true)
  | none =>
    match findIdxFrom (fallbackMatch cfgPlat p) idx.Manifests 0 with
    | some i => (i, true)
    | none => (0, false)

/-- Resolution errors: an empty index, or a failed content-store read. -/
inductive ResolveErr where
  | emptyIndex (imageName : String)
  | readFailed (msg : String)
deriving DecidableEq

/-- `(*Container).resolveManifestDescriptor`: a non-index root is used
directly; otherwise the index is read and scanned with `matchManifest`, an
empty index is an EmptyIndex error, and a non-empty index without a match
falls back to its first entry. -/
def resolveManifestDescriptor (cfgPlat : Descriptor → Option Platform)
    (readIdx : Except String OCIIndex) (p : Platform)
    (root : Descriptor) (imageName : String) :
    Except ResolveErr (Descriptor × Option OCIIndex × Nat) :=
  if ¬ IsIndexType root.MediaType then .ok (root, none, 0)
  else
    match readIdx with
    | .error e => .error (.readFailed e)
    | .ok idx =>
      let r := matchManifest cfgPlat idx p
      if r.2 then .ok (idx.Manifests.getD r.1 defaultDescriptor, some idx, r.1)
      else if idx.Manifests.length = 0 then .error (.emptyIndex imageName)
      else .ok (idx.Manifests.getD 0 defaultDescriptor, some idx, 0)

theorem findIdxFrom_eq_none (pred : Descriptor → Bool) (l : List Descriptor)
    (j : Nat) (h : ∀ d ∈ l, pred d = false) :
    findIdxFrom pred l j = none := by
  induction l generalizing j with
  | nil => rfl
  | cons m rest ih =>
    have hm : pred m = false := h m (List.mem_cons_self m rest)
    simp only [findIdxFrom, hm, if_false, Bool.false_eq_true]
    exact ih (j + 1) (fun d hd => h d (List.mem_cons_of_mem m hd))

theorem findIdxFrom_eq_some (pred : Descriptor → Bool) (l : List Descriptor)
    (j k : Nat) (hk : k < l.length)
    (hp : pred (l.getD k defaultDescriptor) = true)
    (hmin : ∀ m < k, pred (l.getD m defaultDescriptor) = false) :
    findIdxFrom pred l j = some (j + k) := by
  induction l generalizing j k with
  | nil => simp at hk
  | cons x rest ih =>
    cases k with
    | zero =>
      have hx : pred x = true := by
        simpa [List.getD, List.get?_cons_zero] using hp
      simp [findIdxFrom, hx]
    | succ k2 =>
      have hx : pred x = false := by
        have := hmin 0 (Nat.succ_pos k2)
        simpa [List.getD, List.get?_cons_zero] using this
      simp only [findIdxFrom, hx, if_false, Bool.false_eq_true]
      have hk2 : k2 < rest.length := by
        simpa [Nat.succ_lt_succ_iff] using hk
      have hp2 : pred (rest.getD k2 defaultDescriptor) = true := by
        simpa [List.getD, List.get?_cons_succ] using hp
      have hmin2 : ∀ m < k2, pred (rest.getD m defaultDescriptor) = false := by
        intro m hm
        have := hmin (m + 1) (Nat.succ_lt_succ hm)
        simpa [List.getD, List.get?_cons_succ] using this
      have := ih (j + 1) k2 hk2 hp2 hmin2
      rw [this]
      congr 1
      omega

/-- C3: resolving the image root to a platform manifest selects, in order:
the first index entry whose explicit platform field strictly matches
(os/arch/variant); failing that, the first manifest-typed entry without a
platform field whose config blob declares a matching platform; failing that,
EmptyIndex for an empty index and otherwise the first entry; a non-index
root is used directly. -/
theorem resolveManifestDescriptor_spec (cfgPlat : Descriptor → Option Platform)
    (readIdx : Except String OCIIndex) (p : Platform) (root : Descriptor)
    (imageName : String) (idx : OCIIndex) :
    (IsIndexType root.MediaType = false →
      resolveManifestDescriptor cfgPlat readIdx p root imageName =
        .ok (root, none, 0)) ∧
    (IsIndexType root.MediaType = true → readIdx = .ok idx →
      (∀ i, i < idx.Manifests.length →
        explicitMatch p (idx.Manifests.getD i defaultDescriptor) = true →
        (∀ j < i, explicitMatch p (idx.Manifests.getD j defaultDescriptor) = false) →
        resolveManifestDescriptor cfgPlat readIdx p root imageName =
          .ok (idx.Manifests.getD i defaultDescriptor, some idx, i)) ∧
      ((∀ d ∈ idx.Manifests, explicitMatch p d = false) →
        (∀ i, i < idx.Manifests.length →
          fallbackMatch cfgPlat p (idx.Manifests.getD i defaultDescriptor) = true →
          (∀ j < i, fallbackMatch cfgPlat p (idx.Manifests.getD j defaultDescriptor) = false) →
          resolveManifestDescriptor cfgPlat readIdx p root imageName =
            .ok (idx.Manifests.getD i defaultDescriptor, some idx, i)) ∧
        ((∀ d ∈ idx.Manifests, fallbackMatch cfgPlat p d = false) →
          (idx.Manifests = [] →
            resolveManifestDescriptor cfgPlat readIdx p root imageName =
              .error (.emptyIndex imageName)) ∧
          (idx.Manifests ≠ [] →
            resolveManifestDescriptor cfgPlat readIdx p root imageName =
              .ok (idx.Manifests.getD 0 defaultDescriptor, some idx, 0))))) := by
  refine ⟨fun hroot => ?_, fun hroot hread => ?_⟩
  · simp [resolveManifestDescriptor, hroot]
  · subst hread
    refine ⟨fun i hi hp hmin => ?_, fun hnone => ⟨fun i hi hp hmin => ?_, fun hfnone => ⟨fun hnil => ?_, fun hne => ?_⟩⟩⟩
    · have hf := findIdxFrom_eq_some (explicitMatch p) idx.Manifests 0 i hi hp hmin
      rw [Nat.zero_add] at hf
      simp [resolveManifestDescriptor, hroot, matchManifest, hf]
    · have hfe := findIdxFrom_eq_none (explicitMatch p) idx.Manifests 0 hnone
      have hf := findIdxFrom_eq_some (fallbackMatch cfgPlat p) idx.Manifests 0 i hi hp hmin
      rw [Nat.zero_add] at hf
      simp [resolveManifestDescriptor, hroot, matchManifest, hfe, hf]
    · have hfe := findIdxFrom_eq_none (explicitMatch p) idx.Manifests 0 hnone
      have hff := findIdxFrom_eq_none (fallbackMatch cfgPlat p) idx.Manifests 0 hfnone
      simp [resolveManifestDescriptor, hroot, matchManifest, hfe, hff, hnil]
      rfl
    · have hfe := findIdxFrom_eq_none (explicitMatch p) idx.Manifests 0 hnone
      have hff := findIdxFrom_eq_none (fallbackMatch cfgPlat p) idx.Manifests 0 hfnone
      have hlen : ¬ idx.Manifests.length = 0 := by
        simpa [List.length_eq_zero] using hne
      simp [resolveManifestDescriptor, hroot, matchManifest, hfe, hff, hlen]

/-- Sample two-entry index for the C3 witness: amd64 then arm64/v8, both
with explicit platform metadata. -/
def sampleIndexC3 : OCIIndex :=
  ⟨"application/vnd.oci.image.index.v1+json",
   [⟨"application/vnd.oci.image.manifest.v1+json", "sha256:amd", 0, some ⟨"linux", "amd64", ""⟩⟩,
    ⟨"application/vnd.oci.image.manifest.v1+json", "sha256:arm", 0, some ⟨"linux", "arm64", "v8"⟩⟩]⟩

/-- Sample index-typed root descriptor for the C3 witness. -/
def sampleRootC3 : Descriptor :=
  ⟨"application/vnd.oci.image.index.v1+json", "sha256:root", 0, none⟩

/-- Witness for C3: the arm64/v8 container selects the second entry by
strict explicit-platform match. -/
theorem resolveManifestDescriptor_spec_witness :
    IsIndexType sampleRootC3.MediaType = true ∧
    resolveManifestDescriptor (fun _ => none) (.ok sampleIndexC3)
        ⟨"linux", "arm64", "v8"⟩ sampleRootC3 "img" =
      .ok (sampleIndexC3.Manifests.getD 1 defaultDescriptor, some sampleIndexC3, 1) ∧
    sampleIndexC3.Manifests.getD 1 defaultDescriptor =
      ⟨"application/vnd.oci.image.manifest.v1+json", "sha256:arm", 0, some ⟨"linux", "arm64", "v8"⟩⟩ := by
  have h := ((resolveManifestDescriptor_spec (fun _ => none) (.ok sampleIndexC3)
    ⟨"linux", "arm64", "v8"⟩ sampleRootC3 "img" sampleIndexC3).2 (by decide) rfl).1
    1 (by decide) (by decide) (by decide)
  exact ⟨by decide, h, by decide⟩

/-! ## Export pipeline state model (export.go)

The engine state carries the stored image records (name → target descriptor)
and the content store (digest → blob). Content reads go through the state;
engine calls whose results the pipeline merely propagates (container info,
snapshot diff, lease, archive write, digests of serialized blobs) are an
oracle. -/

/-- A stored image record. -/
structure ImageRecord where
  Name : String
  Target : Descriptor
deriving DecidableEq

/-- A decoded content-store blob. -/
inductive BlobVal where
  | manifestBlob (m : Manifest)
  | configBlob (c : ImageConfig)
  | indexBlob (idx : OCIIndex)
deriving DecidableEq

/-- The engine state the export pipeline can observe and modify. -/
structure EngineState where
  images : List ImageRecord
  content : List (String × BlobVal)
deriving DecidableEq

/-- Content-store lookup by digest. -/
def blobLookup : List (String × BlobVal) → String → Option BlobVal
  | [], _ => none
  | (d, v) :: rest, dg => if d = dg then some v else blobLookup rest dg

/-- `ImageService().Get`: look up a stored image record by name. -/
def imagesGet : List ImageRecord → String → Option ImageRecord
  | [], _ => none
  | img :: rest, name => if img.Name = name then some img else imagesGet rest name

/-- `readManifest`: read and decode a manifest blob. -/
def readManifest (st : EngineState) (desc : Descriptor) : Except String Manifest :=
  match blobLookup st.content desc.Digest with
  | some (.manifestBlob m) => .ok m
  | _ => .error ("manifest read failed: " ++ desc.Digest)

/-- `readConfig`: read and decode an image config blob. -/
def readConfig (st : EngineState) (desc : Descriptor) : Except String ImageConfig :=
  match blobLookup st.content desc.Digest with
  | some (.configBlob c) => .ok c
  | _ => .error ("config read failed: " ++ desc.Digest)

/-- `readIndex`: read and decode an index blob. -/
def readIndex (st : EngineState) (desc : Descriptor) : Except String OCIIndex :=
  match blobLookup st.content desc.Digest with
  | some (.indexBlob idx) => .ok idx
  | _ => .error ("index read failed: " ++ desc.Digest)

/-- `(*Container).configPlatform`: the platform declared by the config blob
of a manifest descriptor, `none` when either read fails. -/
def configPlatform (st : EngineState) (desc : Descriptor) : Option Platform :=
  match readManifest st desc with
  | .error _ => none
  | .ok m =>
    match readConfig st m.Config with
    | .error _ => none
    | .ok c => some ⟨c.OS, c.Architecture, c.Variant⟩

/-- Oracle for the engine calls Export makes outside the modelled state:
container record load, snapshot diff, lease acquisition, platform parse,
blob serialization (digest and size), per-ref write outcomes, and the
archive stream write. -/
structure ExportOracle where
  loadInfoImage : Except String String
  diffResult : Except String (Descriptor × String)
  leaseResult : Except String Unit
  parsePlatform : Except String Platform
  digestOf : BlobVal → String
  blobSize : BlobVal → Int
  writeErr : String → Option String
  exportResult : String → Except String Unit

/-- `(*Container).writeBlob`: serialize a value and write it to the content
store under its content digest (GC labels are blob metadata and are not part
of the modelled state). -/
def writeBlob (o : ExportOracle) (st : EngineState) (mediaType : String)
    (v : BlobVal) (ref : String) : Except String Descriptor × EngineState :=
  match o.writeErr ref with
  | some e => (.error e, st)
  | none =>
    (.ok ⟨mediaType, o.digestOf v, o.blobSize v, none⟩,
     { st with content := st.content ++ [(o.digestOf v, v)] })

/-- `(*Container).mutateManifest`: read the manifest and config, apply the
mutation, write the new config blob, then write the new manifest blob
pointing at it. -/
def mutateManifest (o : ExportOracle) (st : EngineState) (target : Descriptor)
    (imageName : String) (mutator : Manifest → ImageConfig → Manifest × ImageConfig) :
    Except String Descriptor × EngineState :=
  match readManifest st target with
  | .error e => (.error e, st)
  | .ok manifest =>
    match readConfig st manifest.Config with
    | .error e => (.error e, st)
    | .ok config =>
      match writeBlob o st (mutator manifest config).1.Config.MediaType
          (.configBlob (mutator manifest config).2) (imageName ++ "-config") with
      | (.error e, st1) => (.error e, st1)
      | (.ok newConfigDesc, st1) =>
        writeBlob o st1 target.MediaType
          (.manifestBlob { (mutator manifest config).1 with Config := newConfigDesc })
          (imageName ++ "-manifest")

/-- `(*Container).buildImageTarget`: a manifest root becomes the new
manifest; an index root becomes a freshly written single-entry index that
contains only the new manifest. -/
def buildImageTarget (o : ExportOracle) (st : EngineState) (root : Descriptor)
    (index : Option OCIIndex) (newManifest : Descriptor) (imageName : String) :
    Except String Descriptor × EngineState :=
  match index with
  | none => (.ok newManifest, st)
  | some idx =>
    writeBlob o st root.MediaType (.indexBlob { idx with Manifests := [newManifest] })
      (imageName ++ "-index")

/-- `(*Container).buildExportTarget`: get the stored image record, resolve
the platform manifest, write the mutated blobs, and produce the ephemeral
root descriptor. The image service is only read (`Get`), never updated. -/
def buildExportTarget (o : ExportOracle) (st : EngineState) (imageName : String)
    (mutator : Manifest → ImageConfig → Manifest × ImageConfig) :
    Except String Descriptor × EngineState :=
  match imagesGet st.images imageName with
  | none => (.error ("image not found: " ++ imageName), st)
  | some img =>
    match o.parsePlatform with
    | .error e => (.error e, st)
    | .ok p =>
      match resolveManifestDescriptor (configPlatform st) (readIndex st img.Target)
          p img.Target imageName with
      | .error (.emptyIndex n) => (.error ("empty index: " ++ n), st)
      | .error (.readFailed e) => (.error e, st)
      | .ok (target, index, _) =>
        match mutateManifest o st target imageName mutator with
        | (.error e, st1) => (.error e, st1)
        | (.ok newManifestDesc, st1) =>
          buildImageTarget o st1 img.Target index newManifestDesc imageName

/-- The entrypoint part of Export's mutation closure: override Entrypoint
and clear Cmd when an override is supplied. -/
def mutateEntrypoint (c : ImageConfig) (entrypoint : List String) : ImageConfig :=
  if entrypoint ≠ [] then { c with Entrypoint := entrypoint, Cmd := none } else c

/-- `(*Container).Export`: load the container record, compute the snapshot
diff, take a content lease, build the ephemeral export target (appending the
new layer and diff id and applying the entrypoint override), and stream the
root descriptor to the archive. The stored image record is never updated. -/
def Export (o : ExportOracle) (output : String) (entrypoint : List String)
    (st : EngineState) : Except String Unit × EngineState :=
  match o.loadInfoImage with
  | .error e => (.error e, st)
  | .ok imageName =>
    match o.diffResult with
    | .error e => (.error e, st)
    | .ok (layer, diffID) =>
      match o.leaseResult with
      | .error e => (.error e, st)
      | .ok _ =>
        match buildExportTarget o st imageName (fun m c =>
          ({ m with Layers := m.Layers ++ [layer] },
           mutateEntrypoint { c with DiffIDs := c.DiffIDs ++ [diffID] } entrypoint)) with
        | (.error e, st1) => (.error e, st1)
        | (.ok _, st1) =>
          match o.exportResult (filepathJoin output exportFilename) with
          | .error e => (.error e, st1)
          | .ok _ => (.ok (), st1)

/-- Frame relation: the stored image records are untouched and the content
store has only been appended to. -/
def ContentExtends (st st' : EngineState) : Prop :=
  st'.images = st.images ∧ ∃ added, st'.content = st.content ++ added

theorem ContentExtends_refl (st : EngineState) : ContentExtends st st :=
  ⟨rfl, [], by simp⟩

theorem ContentExtends_trans {a b c : EngineState}
    (h1 : ContentExtends a b) (h2 : ContentExtends b c) : ContentExtends a c := by
  obtain ⟨hi1, l1, e1⟩ := h1
  obtain ⟨hi2, l2, e2⟩ := h2
  exact ⟨hi2.trans hi1, l1 ++ l2, by rw [e2, e1, List.append_assoc]⟩

theorem writeBlob_extends (o : ExportOracle) (st : EngineState)
    (mt : String) (v : BlobVal) (ref : String) :
    ContentExtends st (writeBlob o st mt v ref).2 := by
  unfold writeBlob
  cases o.writeErr ref with
  | some e => exact ContentExtends_refl st
  | none => exact ⟨rfl, [(o.digestOf v, v)], rfl⟩

theorem mutateManifest_extends (o : ExportOracle) (st : EngineState)
    (target : Descriptor) (imageName : String)
    (mutator : Manifest → ImageConfig → Manifest × ImageConfig) :
    ContentExtends st (mutateManifest o st target imageName mutator).2 := by
  unfold mutateManifest
  split
  · exact ContentExtends_refl st
  next manifest heq1 =>
    split
    · exact ContentExtends_refl st
    next config heq2 =>
      split
      next e st1 heq3 =>
        have h := writeBlob_extends o st (mutator manifest config).1.Config.MediaType
          (.configBlob (mutator manifest config).2) (imageName ++ "-config")
        rw [heq3] at h
        exact h
      next newConfigDesc st1 heq3 =>
        have h := writeBlob_extends o st (mutator manifest config).1.Config.MediaType
          (.configBlob (mutator manifest config).2) (imageName ++ "-config")
        rw [heq3] at h
        exact ContentExtends_trans h (writeBlob_extends o st1 target.MediaType
          (.manifestBlob { (mutator manifest config).1 with Config := newConfigDesc })
          (imageName ++ "-manifest"))

theorem buildImageTarget_extends (o : ExportOracle) (st : EngineState)
    (root : Descriptor) (index : Option OCIIndex) (newManifest : Descriptor)
    (imageName : String) :
    ContentExtends st (buildImageTarget o st root index newManifest imageName).2 := by
  unfold buildImageTarget
  cases index with
  | none => exact ContentExtends_refl st
  | some idx =>
    exact writeBlob_extends o st root.MediaType
      (.indexBlob { idx with Manifests := [newManifest] }) (imageName ++ "-index")

theorem buildExportTarget_extends (o : ExportOracle) (st : EngineState)
    (imageName : String) (mutator : Manifest → ImageConfig → Manifest × ImageConfig) :
    ContentExtends st (buildExportTarget o st imageName mutator).2 := by
  unfold buildExportTarget
  split
  · exact ContentExtends_refl st
  next img heq0 =>
    split
    · exact ContentExtends_refl st
    next p heqp =>
      split
      · exact ContentExtends_refl st
      · exact ContentExtends_refl st
      next target index i heqr =>
        split
        next e st1 heqm =>
          have h := mutateManifest_extends o st target imageName mutator
          rw [heqm] at h
          exact h
        next newManifestDesc st1 heqm =>
          have h := mutateManifest_extends o st target imageName mutator
          rw [heqm] at h
          exact ContentExtends_trans h
            (buildImageTarget_extends o st1 img.Target index newManifestDesc imageName)

/-- C1: Export never touches the stored image records — every image keeps
its name and target descriptor whether the call succeeds or fails — and the
content store is only appended to (the mutated config, manifest, and new
index become new blobs); in particular the export target descriptor is never
installed under any stored image name. -/
theorem Export_preserves_images (o : ExportOracle) (output : String)
    (entrypoint : List String) (st : EngineState) :
    (Export o output entrypoint st).2.images = st.images ∧
    ∃ added, (Export o output entrypoint st).2.content = st.content ++ added := by
  suffices h : ContentExtends st (Export o output entrypoint st).2 from h
  unfold Export
  split
  · exact ContentExtends_refl st
  next imageName heq1 =>
    split
    · exact ContentExtends_refl st
    next layer diffID heq2 =>
      split
      · exact ContentExtends_refl st
      next u heq3 =>
        split
        next e st1 heqb =>
          have h := buildExportTarget_extends o st imageName (fun m c =>
            ({ m with Layers := m.Layers ++ [layer] },
             mutateEntrypoint { c with DiffIDs := c.DiffIDs ++ [diffID] } entrypoint))
          rw [heqb] at h
          exact h
        next target st1 heqb =>
          have h := buildExportTarget_extends o st imageName (fun m c =>
            ({ m with Layers := m.Layers ++ [layer] },
             mutateEntrypoint { c with DiffIDs := c.DiffIDs ++ [diffID] } entrypoint))
          rw [heqb] at h
          split
          · exact h
          · exact h

end Cruxd
